import Mathlib

/-!
Verification development for the `graph-rag-example` ingestion pipeline
(`load_data.py`).  The Python source is shallowly embedded: pure fragments
become Lean functions, external-world effects (GCS listing, file downloads,
PDF/markdown parsing, keyword and entity extraction) become explicit inputs,
and Python exceptions become `Except`.
-/

namespace GraphRag

/-! ## Path helpers

Embeddings of the path manipulations used by `load_data.py`:
`Path(name).suffix`, `.lower()`, `os.path.basename` and `os.path.join`.
Strings are handled at the character-list level. -/

/-- Characters of `l` strictly after the last occurrence of `sep`
(the whole list when `sep` does not occur).  This is the final path
component used by both `os.path.basename` and `Path(...).name`; the two
differ only on names ending in `/`, which `download_gcs_files` filters
out before ever computing a suffix. -/
def afterLast (sep : Char) (l : List Char) : List Char :=
  l.foldl (fun acc c => if c = sep then [] else acc ++ [c]) []

/-- Splits a name at its last dot: `some (stem, ext)` with
`name = stem ++ dot :: ext` and `ext` dot-free, or `none` when the name
contains no dot. -/
def splitAtLastDot : List Char → Option (List Char × List Char)
  | [] => none
  | c :: cs =>
    match splitAtLastDot cs with
    | some (st, ex) => some (c :: st, ex)
    | none => if c = '.' then some ([], cs) else none

/-- Whether the project treats this split as a real extension:
`pathlib` returns a suffix only when the last dot lies strictly inside
the name (`0 < i < len(name) - 1` in `PurePath.suffix`). -/
def suffixOfName (name : List Char) : String :=
  match splitAtLastDot name with
  | some (st, ex) => if st ≠ [] ∧ ex ≠ [] then String.mk ('.' :: ex) else ""
  | none => ""

/-- Embedding of `Path(p).suffix` as used in `load_data.py` (line 98 and
line 134): the extension of the final path component, dot included. -/
def pathSuffix (p : String) : String :=
  suffixOfName (afterLast '/' p.data)

/-- Embedding of Python `str.lower()` on extensions, character by
character (extensions are ASCII). -/
def strLower (s : String) : String :=
  String.mk (s.data.map Char.toLower)

/-- Embedding of `os.path.basename`. -/
def basename (p : String) : String :=
  String.mk (afterLast '/' p.data)

/-- Whether a string starts with the path separator
(Python `b.startswith('/')`). -/
def startsWithSlash (s : String) : Bool :=
  s.data.head? = some '/'

/-- Whether a string ends with the path separator
(Python `a.endswith('/')`). -/
def endsWithSlash (s : String) : Bool :=
  s.data.getLast? = some '/'

/-- Embedding of `os.path.join(a, b)` for POSIX paths, two arguments:
`b` when `b` is absolute, plain concatenation when `a` is empty or already
ends in a separator, and separator-joined concatenation otherwise. -/
def osPathJoin (a b : String) : String :=
  if startsWithSlash b then b
  else if a = "" ∨ endsWithSlash a then a ++ b
  else a ++ "/" ++ b

/-! ## Source fetcher: `download_gcs_files` (load_data.py lines 70-118)

A GCS blob is modelled by its name, its size, and whether the network
download of this object would succeed (`download_to_filename` raising is
an external-world fact, so it is a field of the model). -/

/-- A listed GCS object together with the external-world fact of whether
downloading it succeeds. -/
structure Blob where
  name : String
  size : Nat
  downloadOk : Bool
  deriving DecidableEq, Repr

/-- File extensions accepted by `download_gcs_files`
(load_data.py line 101: `['.pdf', '.md', '.markdown']`). -/
def allowedExtensions : List String := [".pdf", ".md", ".markdown"]

/-- Per-blob decision of `download_gcs_files`, in source order: the
folder-marker / empty check (line 94) runs before the extension check
(line 101). -/
inductive BlobAction where
  | skipFolderOrEmpty
  | skipUnsupported
  | download
  deriving DecidableEq, Repr

/-- Classification of one blob by `download_gcs_files` (lines 92-103). -/
def classifyBlob (b : Blob) : BlobAction :=
  if endsWithSlash b.name ∨ b.size = 0 then .skipFolderOrEmpty
  else if strLower (pathSuffix b.name) ∉ allowedExtensions then .skipUnsupported
  else .download

/-- Local path for a downloaded blob
(line 106: `os.path.join(local_dir, os.path.basename(blob.name))`). -/
def localFilePath (localDir : String) (blobName : String) : String :=
  osPathJoin localDir (basename blobName)

/-- Loop body of `download_gcs_files` (lines 92-114): walks the listing,
skipping folder markers / empty blobs and unsupported extensions, and
appends the local path of each downloaded blob.  A failing download
raises; the surrounding `except` logs and re-raises (lines 116-118), so
the whole call becomes `Except.error`. -/
def downloadGcsFilesGo (localDir : String) :
    List Blob → List String → Except String (List String)
  | [], acc => .ok acc
  | b :: bs, acc =>
    match classifyBlob b with
    | .skipFolderOrEmpty => downloadGcsFilesGo localDir bs acc
    | .skipUnsupported => downloadGcsFilesGo localDir bs acc
    | .download =>
      if b.downloadOk then
        downloadGcsFilesGo localDir bs (acc ++ [localFilePath localDir b.name])
      else
        .error "Error downloading from GCS"

/-- Embedding of `download_gcs_files(bucket_name, folder_prefix, local_dir)`.
The bucket listing obtained from `bucket.list_blobs(prefix=...)` is the
`blobs` input. -/
def download_gcs_files (localDir : String) (blobs : List Blob) :
    Except String (List String) :=
  downloadGcsFilesGo localDir blobs []

/-! ## Document model

A LangChain `Document` is raw text plus metadata.  Graph links produced by
the link extractors live in the document metadata under a dedicated key in
LangChain; they are modelled here as a separate `links` field so that the
"link entries" added by the extractors are distinguished from the inherited
key-value metadata, exactly as the spec distinguishes them. -/

/-- A typed graph link attached to a document (kind/label plus tag). -/
structure Link where
  kind : String
  tag : String
  deriving DecidableEq, Repr

/-- A LangChain document: page content, key-value metadata and graph links. -/
structure Document where
  page_content : String
  metadata : List (String × String)
  links : List Link
  deriving DecidableEq, Repr

/-- Dict-style assignment `metadata[k] = v`: overwrites the existing entry
for `k` or appends a fresh one. -/
def setMeta (k v : String) (m : List (String × String)) : List (String × String) :=
  if m.any (fun kv => kv.1 = k) then
    m.map (fun kv => if kv.1 = k then (k, v) else kv)
  else m ++ [(k, v)]

/-! ## Document loader: `load_documents_from_files` (load_data.py lines 121-159)

The two parsers are external libraries; their observable output is modelled
from their documented behaviour, with the actual extracted text supplied by
the world. -/

/-- Modelled from the spec: `PyPDFLoader(file_path).load()` is an external
structured PDF parser (not part of this repository).  It yields one
`Document` per page, stamped with the loader metadata PyPDF uses: the
source path and the zero-based page index.  The extracted page texts (or a
parse failure) are an external-world input `pdfPages`. -/
def pyPdfLoaderLoad (pdfPages : String → Except String (List String))
    (file_path : String) : Except String (List Document) :=
  (pdfPages file_path).map fun pages =>
    pages.enum.map fun pg =>
      { page_content := pg.2
        metadata := [("source", file_path), ("page", toString pg.1)]
        links := [] }

/-- Modelled from the spec: `TextLoader(file_path, encoding='utf-8').load()`
is an external flat text reader (not part of this repository).  It yields a
single `Document` holding the whole file text with metadata
`{'source': file_path}`.  The file content (or a read failure) is an
external-world input `fileText`. -/
def textLoaderLoad (fileText : String → Except String String)
    (file_path : String) : Except String (List Document) :=
  (fileText file_path).map fun t =>
    [{ page_content := t, metadata := [("source", file_path)], links := [] }]

/-- Markdown stamping performed by `load_documents_from_files`
(lines 149-151): `doc.metadata['source_type'] = 'markdown'` and
`doc.metadata['file_name'] = os.path.basename(file_path)`. -/
def stampMarkdownMeta (file_path : String) (doc : Document) : Document :=
  { doc with
      metadata :=
        setMeta "file_name" (basename file_path)
          (setMeta "source_type" "markdown" doc.metadata) }

/-- Loop body of `load_documents_from_files` (lines 133-156): dispatch on
`Path(file_path).suffix.lower()`; a `.pdf` goes to `PyPDFLoader`, a
`.md`/`.markdown` goes to `TextLoader` followed by the metadata stamping;
any other extension matches no branch.  A parser exception is logged and
the loop continues (`except ... continue`). -/
def loadDocumentsGo (pdfPages : String → Except String (List String))
    (fileText : String → Except String String) :
    List String → List Document → List Document
  | [], documents => documents
  | file_path :: rest, documents =>
    let file_ext := strLower (pathSuffix file_path)
    let documents :=
      if file_ext = ".pdf" then
        match pyPdfLoaderLoad pdfPages file_path with
        | .ok docs => documents ++ docs
        | .error _ => documents
      else if file_ext = ".md" ∨ file_ext = ".markdown" then
        match textLoaderLoad fileText file_path with
        | .ok docs => documents ++ docs.map (stampMarkdownMeta file_path)
        | .error _ => documents
      else documents
    loadDocumentsGo pdfPages fileText rest documents

/-- Embedding of `load_documents_from_files(file_paths)`. -/
def load_documents_from_files (pdfPages : String → Except String (List String))
    (fileText : String → Except String String)
    (file_paths : List String) : List Document :=
  loadDocumentsGo pdfPages fileText file_paths []

/-! ## Chunk splitting

`RecursiveCharacterTextSplitter(chunk_size=1024, chunk_overlap=64)` is an
external library transformer; the model below follows the spec's
description: recursive size-bounded splitting of each document's text into
indivisible units that are greedily merged into chunks of bounded size,
each chunk inheriting the parent document's metadata.  Overlap duplication
between adjacent chunks is configuration the model carries but does not
reproduce, since no stated property depends on it. -/

/-- Splits a character stream into indivisible units at newline boundaries,
accumulator-style; the result is always nonempty. -/
def unitsAux : List Char → List Char → List (List Char)
  | acc, [] => [acc.reverse]
  | acc, c :: cs =>
    if c = '\n' then acc.reverse :: unitsAux [] cs else unitsAux (c :: acc) cs

/-- Modelled from the spec: the indivisible units of a text, the atoms the
recursive splitter is unwilling to break. -/
def splitIntoUnits (s : String) : List String :=
  (unitsAux [] s.data).map String.mk

/-- Total character length of a group of units. -/
def unitsLen (g : List String) : Nat :=
  (g.map String.length).sum

/-- Concatenation of a group of units into a chunk text. -/
def joinUnits : List String → String
  | [] => ""
  | u :: us => u ++ joinUnits us

/-- Greedy merge step: append the unit to the current chunk when the
result still fits in `chunk_size`, otherwise start a new chunk with it.
Groups are kept most-recent-first. -/
def addUnit (chunk_size : Nat) : List (List String) → String → List (List String)
  | [], u => [[u]]
  | cur :: rest, u =>
    if unitsLen (cur ++ [u]) ≤ chunk_size then (cur ++ [u]) :: rest
    else [u] :: cur :: rest

/-- Modelled from the spec: greedy merging of units into size-bounded
chunks; a unit longer than `chunk_size` becomes a chunk of its own. -/
def mergeUnits (chunk_size : Nat) (us : List String) : List (List String) :=
  (us.foldl (addUnit chunk_size) []).reverse

/-- Modelled from the spec: splitting one document into chunk documents,
each inheriting the parent's metadata (and metadata link entries). -/
def splitDocument (chunk_size chunk_overlap : Nat) (doc : Document) :
    List Document :=
  let _ := chunk_overlap
  (mergeUnits chunk_size (splitIntoUnits doc.page_content)).map fun g =>
    { page_content := joinUnits g, metadata := doc.metadata, links := doc.links }

/-- Modelled from the spec: `text_splitter.split_documents(document_chunk)`
applied to a batch of documents. -/
def splitDocuments (chunk_size chunk_overlap : Nat) (docs : List Document) :
    List Document :=
  docs.flatMap (splitDocument chunk_size chunk_overlap)

/-! ## Link extraction stages

`KeybertLinkExtractor` and `GLiNERLinkExtractor` delegate keyword and
named-entity extraction to external models; the extraction functions are
world inputs.  A `LinkExtractorTransformer` adds the extracted links to
each document's metadata link entries, touching nothing else. -/

/-- Adds link entries to a document, leaving content and key-value
metadata untouched. -/
def addLinks (ls : List Link) (doc : Document) : Document :=
  { doc with links := doc.links ++ ls }

/-- Modelled from the spec:
`LinkExtractorTransformer([KeybertLinkExtractor()])` — stage 1 of the
batch pipeline.  `kw` is the external KeyBERT keyword model. -/
def keybertStage (kw : String → List String) (docs : List Document) :
    List Document :=
  docs.map fun d =>
    addLinks ((kw d.page_content).map fun k => { kind := "kw", tag := k }) d

/-- The fixed GLiNER label set (load_data.py lines 222-225). -/
def glinerLabels : List String :=
  ["Person", "Organization", "Location", "Product",
   "Technology", "Concept", "Topic", "Category"]

/-- Modelled from the spec:
`LinkExtractorTransformer([GLiNERLinkExtractor(labels)])` — stage 3 of the
batch pipeline.  `ner` is the external GLiNER named-entity model, given
the label set and a text. -/
def glinerStage (labels : List String)
    (ner : List String → String → List (String × String))
    (docs : List Document) : List Document :=
  docs.map fun d =>
    addLinks ((ner labels d.page_content).map fun p =>
      { kind := p.1, tag := p.2 }) d

/-- Specification-side description of one batch of the pipeline: keyword
extraction on the whole documents, then splitting with chunk_size 1024 and
chunk_overlap 64, then entity extraction with the fixed label set on the
split chunks. -/
def processBatchSpec (kw : String → List String)
    (ner : List String → String → List (String × String))
    (batch : List Document) : List Document :=
  glinerStage glinerLabels ner
    (splitDocuments 1024 64 (keybertStage kw batch))

/-! ## Batch loop of `main` (load_data.py lines 194-234) -/

/-- Embedding of Python `range(start, stop, step)` for a positive step. -/
def pyRangeStep (start stop step : Nat) : List Nat :=
  if _h : start < stop ∧ 0 < step then
    start :: pyRangeStep (start + step) stop step
  else []
termination_by stop - start
decreasing_by omega

/-- The document batches of the loop
`for i in range(0, len(documents), chunk_size)` with the slice
`documents[i:i + chunk_size]` (lines 196-198). -/
def batchSlices (docs : List Document) (size : Nat) : List (List Document) :=
  (pyRangeStep 0 docs.length size).map fun i => (docs.drop i).take size

/-- Observable actions of the ingestion script, in execution order. -/
inductive ScriptEvent where
  | openAiEmbeddingsInit
  | cassioInit
  | storeInit
  | gcsList
  | gcsDownload (name : String)
  | keybertExtract
  | splitChunks (chunk_size chunk_overlap : Nat)
  | glinerExtract (labels : List String)
  | storeWrite (nchunks : Nat)
  deriving DecidableEq, Repr

/-- Per-batch events and output of the loop body (lines 200-234):
keyword extraction, splitting, entity extraction, then
`store.add_documents` — mirroring the sequential reassignment of
`document_chunk` in the source. -/
def mainLoopBody (kw : String → List String)
    (ner : List String → String → List (String × String))
    (docs : List Document) (i : Nat) :
    List ScriptEvent × List Document :=
  let document_chunk := (docs.drop i).take 10
  let document_chunk := keybertStage kw document_chunk
  let document_chunk := splitDocuments 1024 64 document_chunk
  let document_chunk := glinerStage glinerLabels ner document_chunk
  ([ScriptEvent.keybertExtract, ScriptEvent.splitChunks 1024 64,
    ScriptEvent.glinerExtract glinerLabels,
    ScriptEvent.storeWrite document_chunk.length], document_chunk)

/-- The whole batch loop of `main` with `chunk_size = 10` (line 195),
collecting the events and the per-batch chunk lists written to the
store. -/
def mainLoop (kw : String → List String)
    (ner : List String → String → List (String × String))
    (documents : List Document) :
    List ScriptEvent × List (List Document) :=
  (pyRangeStep 0 documents.length 10).foldl
    (fun acc i =>
      (acc.1 ++ (mainLoopBody kw ner documents i).1,
       acc.2 ++ [(mainLoopBody kw ner documents i).2]))
    ([], [])

/-! ## The ingestion script end to end

Module-level initialization (load_data.py lines 41-67) runs at import
time, before `main` (lines 162-240). -/

/-- The environment variables the script reads.  Python truthiness makes
an unset variable and an empty string equally falsy. -/
structure Env where
  openaiApiKey : Option String
  astraDbDatabaseId : Option String
  astraDbApplicationToken : Option String
  astraDbEndpoint : Option String
  gcsBucketName : Option String
  gcsFolderPref : Option String
  deriving DecidableEq, Repr

/-- Python truthiness of an optional environment value. -/
def isSet : Option String → Bool
  | none => false
  | some s => s ≠ ""

/-- External-world inputs of one run: the GCS listing and the parsers'
and extraction models' behaviour. -/
structure World where
  blobs : List Blob
  pdfPages : String → Except String (List String)
  fileText : String → Except String String
  kw : String → List String
  ner : List String → String → List (String × String)

/-- How a run of the script ends: normal return, or an uncaught exception
(which terminates the Python process with a non-zero status).
`loggedByMain` records whether `main`'s `except` block logged the
exception via `LOGGER.error` before re-raising (lines 238-240). -/
inductive Outcome where
  | normal
  | raised (msg : String) (loggedByMain : Bool)
  deriving DecidableEq, Repr

/-- Module-level initialization (lines 41-67): the `OpenAIEmbeddings`
constructor (no network), then the Astra credential check (line 49),
which raises before `cassio.init` and the store constructor run. -/
def moduleInit (env : Env) : List ScriptEvent × Option String :=
  if ¬ (isSet env.astraDbDatabaseId ∧ isSet env.astraDbApplicationToken
        ∧ isSet env.astraDbEndpoint) then
    ([ScriptEvent.openAiEmbeddingsInit], some "Missing required Astra DB credentials")
  else
    ([ScriptEvent.openAiEmbeddingsInit, ScriptEvent.cassioInit,
      ScriptEvent.storeInit], none)

/-- The GCS network events of one fetch: the listing, then a download
attempt per eligible blob up to (and including) the first failure. -/
def fetchEvents : List Blob → List ScriptEvent
  | [] => []
  | b :: bs =>
    match classifyBlob b with
    | .download =>
      ScriptEvent.gcsDownload b.name ::
        (if b.downloadOk then fetchEvents bs else [])
    | _ => fetchEvents bs

/-- Embedding of `main()` (lines 162-240): read the GCS configuration,
fail when the bucket is unset, fetch, fail on an empty fetch, load, fail
on an empty load, then run the batch loop.  Every exception inside the
`try` is logged by `main` and re-raised. -/
def runMain (env : Env) (w : World) : List ScriptEvent × Outcome :=
  let gcs_bucket := env.gcsBucketName
  if ¬ isSet gcs_bucket then
    ([], .raised "GCS_BUCKET_NAME environment variable is not set" true)
  else
    let fetched := download_gcs_files "/tmp/scratch" w.blobs
    let evs := ScriptEvent.gcsList :: fetchEvents w.blobs
    match fetched with
    | .error e => (evs, .raised e true)
    | .ok file_paths =>
      if file_paths = [] then
        (evs, .raised "No PDF or Markdown files found in the specified GCS location" true)
      else
        let documents := load_documents_from_files w.pdfPages w.fileText file_paths
        if documents = [] then
          (evs, .raised "No documents could be loaded from the files" true)
        else
          let looped := mainLoop w.kw w.ner documents
          (evs ++ looped.1, .normal)

/-- Running the script: module-level initialization, then `main()`.  The
third component records whether `main` ran at all. -/
def runScript (env : Env) (w : World) : List ScriptEvent × Outcome × Bool :=
  let initial := moduleInit env
  match initial.2 with
  | some m => (initial.1, .raised m false, false)
  | none =>
    let ran := runMain env w
    (initial.1 ++ ran.1, ran.2, true)

/-! ## Lemmas about path manipulation -/

theorem foldl_afterLast_sepfree (sep : Char) (ys : List Char)
    (hys : ∀ c ∈ ys, c ≠ sep) (acc : List Char) :
    ys.foldl (fun a c => if c = sep then [] else a ++ [c]) acc = acc ++ ys := by
  induction ys generalizing acc with
  | nil => simp
  | cons y ys ih =>
    have hy : y ≠ sep := hys y (List.mem_cons_self y ys)
    simp only [List.foldl_cons, if_neg hy]
    rw [ih (fun c hc => hys c (List.mem_cons_of_mem y hc))]
    simp

theorem afterLast_append_sepfree (sep : Char) (xs ys : List Char)
    (hys : ∀ c ∈ ys, c ≠ sep) :
    afterLast sep (xs ++ ys) = afterLast sep xs ++ ys := by
  unfold afterLast
  rw [List.foldl_append, foldl_afterLast_sepfree sep ys hys]

theorem afterLast_sepfree (sep : Char) (l : List Char) :
    ∀ c ∈ afterLast sep l, c ≠ sep := by
  suffices h : ∀ acc, (∀ c ∈ acc, c ≠ sep) →
      ∀ c ∈ l.foldl (fun a c => if c = sep then [] else a ++ [c]) acc, c ≠ sep by
    exact h [] (by simp)
  induction l with
  | nil => intro acc hacc; simpa using hacc
  | cons x xs ih =>
    intro acc hacc
    simp only [List.foldl_cons]
    by_cases hx : x = sep
    · rw [if_pos hx]
      exact ih [] (by simp)
    · rw [if_neg hx]
      refine ih (acc ++ [x]) ?_
      intro c hc
      rcases List.mem_append.mp hc with h | h
      · exact hacc c h
      · simpa using (List.mem_singleton.mp h) ▸ hx

theorem afterLast_of_sepfree (sep : Char) (ys : List Char)
    (hys : ∀ c ∈ ys, c ≠ sep) : afterLast sep ys = ys := by
  have := afterLast_append_sepfree sep [] ys hys
  simpa [afterLast] using this

theorem afterLast_append_sep (sep : Char) (xs : List Char) :
    afterLast sep (xs ++ [sep]) = [] := by
  unfold afterLast
  rw [List.foldl_append]
  simp

/-- Joining a scratch directory onto a separator-free file name leaves the
final path component, hence the suffix, unchanged. -/
theorem pathSuffix_localFilePath (dir nm : String) :
    pathSuffix (localFilePath dir nm) = pathSuffix nm := by
  unfold localFilePath osPathJoin
  set y := afterLast '/' nm.data with hy
  have hyfree : ∀ c ∈ y, c ≠ '/' := afterLast_sepfree '/' nm.data
  have hbase : (basename nm).data = y := rfl
  have hstart : startsWithSlash (basename nm) = false := by
    unfold startsWithSlash
    rw [hbase]
    cases hcy : y with
    | nil => simp
    | cons c cs =>
      have : c ≠ '/' := hyfree c (by rw [hcy]; exact List.mem_cons_self c cs)
      simp [this]
  rw [hstart]
  simp only [Bool.false_eq_true, if_false]
  by_cases hdir : dir = "" ∨ endsWithSlash dir = true
  · rw [if_pos hdir]
    rcases hdir with hdir | hdir
    · subst hdir
      show suffixOfName (afterLast '/' ("" ++ basename nm).data) = pathSuffix nm
      rw [String.empty_append, hbase, afterLast_of_sepfree '/' y hyfree]
      rfl
    · show suffixOfName (afterLast '/' (dir ++ basename nm).data) = pathSuffix nm
      rw [String.data_append, hbase]
      have hl : dir.data.getLast? = some '/' := by
        unfold endsWithSlash at hdir
        exact of_decide_eq_true hdir
      have hne : dir.data ≠ [] := by
        intro hnil
        rw [hnil] at hl
        simp at hl
      have hsplit : dir.data = dir.data.dropLast ++ ['/'] := by
        have hgl : dir.data.getLast hne = '/' := by
          have := List.getLast?_eq_getLast dir.data hne
          rw [this] at hl
          exact Option.some.inj hl
        conv_lhs => rw [← List.dropLast_append_getLast hne]
        rw [hgl]
      rw [hsplit]
      rw [afterLast_append_sepfree '/' _ y hyfree]
      rw [afterLast_append_sep]
      rw [List.nil_append]
      rfl
  · rw [if_neg hdir]
    show suffixOfName (afterLast '/' (dir ++ "/" ++ basename nm).data) = pathSuffix nm
    rw [String.data_append, String.data_append, hbase]
    rw [afterLast_append_sepfree '/' _ y hyfree]
    have : afterLast '/' (dir.data ++ ("/" : String).data) = [] := by
      show afterLast '/' (dir.data ++ ['/']) = []
      exact afterLast_append_sep '/' dir.data
    rw [this, List.nil_append]
    rfl

/-! ## Lemmas about the source fetcher -/

theorem classifyBlob_download_ext (b : Blob)
    (h : classifyBlob b = BlobAction.download) :
    strLower (pathSuffix b.name) ∈ allowedExtensions := by
  unfold classifyBlob at h
  by_cases h1 : endsWithSlash b.name = true ∨ b.size = 0
  · rw [if_pos h1] at h
    exact absurd h (by simp)
  · rw [if_neg h1] at h
    by_cases h2 : strLower (pathSuffix b.name) ∉ allowedExtensions
    · rw [if_pos h2] at h
      exact absurd h (by simp)
    · exact not_not.mp h2

/-- Characterization of a successful fetch: the returned paths are exactly
the local paths of the `.download`-classified blobs, in listing order. -/
theorem downloadGcsFilesGo_ok (localDir : String) (blobs : List Blob)
    (acc files : List String)
    (h : downloadGcsFilesGo localDir blobs acc = Except.ok files) :
    files = acc ++ (blobs.filter fun b => classifyBlob b = BlobAction.download).map
                     (fun b => localFilePath localDir b.name) := by
  induction blobs generalizing acc with
  | nil =>
    unfold downloadGcsFilesGo at h
    cases h
    simp
  | cons b bs ih =>
    unfold downloadGcsFilesGo at h
    cases hcb : classifyBlob b with
    | skipFolderOrEmpty =>
      rw [hcb] at h
      simp only at h
      rw [ih acc h]
      simp [List.filter_cons, hcb]
    | skipUnsupported =>
      rw [hcb] at h
      simp only at h
      rw [ih acc h]
      simp [List.filter_cons, hcb]
    | download =>
      rw [hcb] at h
      simp only at h
      by_cases hok : b.downloadOk = true
      · rw [if_pos hok] at h
        rw [ih _ h]
        simp [List.filter_cons, hcb]
      · rw [if_neg hok] at h
        cases h

/-- A failing download of an eligible blob makes the whole fetch raise. -/
theorem downloadGcsFilesGo_error (localDir : String) (blobs : List Blob)
    (acc : List String)
    (h : ∃ b ∈ blobs, classifyBlob b = BlobAction.download ∧ b.downloadOk = false) :
    downloadGcsFilesGo localDir blobs acc = Except.error "Error downloading from GCS" := by
  induction blobs generalizing acc with
  | nil => simp at h
  | cons b bs ih =>
    obtain ⟨x, hx, hcx, hnok⟩ := h
    unfold downloadGcsFilesGo
    rcases List.mem_cons.mp hx with rfl | hx2
    · rw [hcx]
      simp only
      rw [if_neg (by simp [hnok])]
    · cases hcb : classifyBlob b with
      | skipFolderOrEmpty => exact ih acc ⟨x, hx2, hcx, hnok⟩
      | skipUnsupported => exact ih acc ⟨x, hx2, hcx, hnok⟩
      | download =>
        by_cases hok : b.downloadOk = true
        · rw [if_pos hok]
          exact ih _ ⟨x, hx2, hcx, hnok⟩
        · rw [if_neg hok]

/-! ## Claim C4 -/

/-- C4: for every storage listing, every path in the list returned by
`download_gcs_files` has a file extension in the allow-list
`{.pdf, .md, .markdown}`, compared case-insensitively; no path with any
other extension is ever returned. -/
theorem download_gcs_files_extension_allowlist (localDir : String)
    (blobs : List Blob) (files : List String)
    (h : download_gcs_files localDir blobs = Except.ok files) :
    ∀ f ∈ files, strLower (pathSuffix f) ∈ allowedExtensions := by
  have hchar := downloadGcsFilesGo_ok localDir blobs [] files h
  intro f hf
  rw [hchar, List.nil_append] at hf
  obtain ⟨b, hb, rfl⟩ := List.mem_map.mp hf
  rw [pathSuffix_localFilePath]
  exact classifyBlob_download_ext b (of_decide_eq_true (List.mem_filter.mp hb).2)

/-- Witness for C4 at a concrete listing. -/
theorem download_gcs_files_extension_allowlist_witness :
    strLower (pathSuffix "/tmp/scratch/a.PDF") ∈ allowedExtensions :=
  download_gcs_files_extension_allowlist "/tmp/scratch"
    [{ name := "docs/a.PDF", size := 5, downloadOk := true }]
    ["/tmp/scratch/a.PDF"] (by rfl) "/tmp/scratch/a.PDF" (by decide)

/-! ## Claim C2 -/

/-- Counterexample to C2: a listing with two eligible blobs in which the
first download fails.  `download_gcs_files` does not skip the failed
object and continue — the whole fetch raises (the outer `except` logs and
re-raises), so no list of remaining objects is ever returned. -/
theorem download_gcs_files_failure_cex :
    download_gcs_files "/tmp/scratch"
        [{ name := "docs/a.pdf", size := 5, downloadOk := false },
         { name := "docs/b.md", size := 7, downloadOk := true }]
      = Except.error "Error downloading from GCS" := by rfl

/-- C2 amended: when the download of one eligible object fails, the
exception is logged and re-raised, aborting the whole fetch run; no trailing
objects are processed and no file list is returned. -/
theorem download_gcs_files_failure_aborts (localDir : String) (blobs : List Blob)
    (h : ∃ b ∈ blobs, classifyBlob b = BlobAction.download ∧ b.downloadOk = false) :
    download_gcs_files localDir blobs = Except.error "Error downloading from GCS" :=
  downloadGcsFilesGo_error localDir blobs [] h

/-- Witness for the amended C2 at a concrete listing. -/
theorem download_gcs_files_failure_aborts_witness :
    download_gcs_files "/tmp/scratch"
        [{ name := "docs/a.pdf", size := 5, downloadOk := false }]
      = Except.error "Error downloading from GCS" :=
  download_gcs_files_failure_aborts "/tmp/scratch"
    [{ name := "docs/a.pdf", size := 5, downloadOk := false }]
    ⟨{ name := "docs/a.pdf", size := 5, downloadOk := false },
      by simp, by decide, rfl⟩

/-! ## Claim C10 -/

/-- C10: a blob whose name ends with `/` (a folder marker) or whose size
is 0 is classified as skipped by the very first check of the loop — before
the extension filter is even consulted (the classification holds with no
assumption on the extension) — and is never downloaded: in a successful
run the returned paths come exactly from the `.download`-classified blobs,
none of which is a folder marker or empty. -/
theorem folder_or_empty_blobs_never_downloaded (localDir : String)
    (blobs : List Blob) (b : Blob) (files : List String) (_hb : b ∈ blobs)
    (h : endsWithSlash b.name = true ∨ b.size = 0)
    (hok : download_gcs_files localDir blobs = Except.ok files) :
    classifyBlob b = BlobAction.skipFolderOrEmpty ∧
    files = (blobs.filter fun x => classifyBlob x = BlobAction.download).map
              (fun x => localFilePath localDir x.name) ∧
    ∀ x ∈ blobs.filter (fun x => classifyBlob x = BlobAction.download),
      ¬ (endsWithSlash x.name = true ∨ x.size = 0) := by
  refine ⟨?_, ?_, ?_⟩
  · unfold classifyBlob
    rw [if_pos h]
  · have := downloadGcsFilesGo_ok localDir blobs [] files hok
    rw [List.nil_append] at this
    exact this
  · intro x hx hprop
    have hcx : classifyBlob x = BlobAction.download :=
      of_decide_eq_true (List.mem_filter.mp hx).2
    unfold classifyBlob at hcx
    rw [if_pos hprop] at hcx
    cases hcx

/-- Witness for C10 at a concrete listing holding a folder marker, an
empty blob and one real document. -/
theorem folder_or_empty_blobs_never_downloaded_witness :
    classifyBlob { name := "docs/sub.pdf/", size := 9, downloadOk := true }
      = BlobAction.skipFolderOrEmpty :=
  (folder_or_empty_blobs_never_downloaded "/tmp/scratch"
    [{ name := "docs/sub.pdf/", size := 9, downloadOk := true },
     { name := "docs/empty.md", size := 0, downloadOk := true },
     { name := "docs/real.md", size := 4, downloadOk := true }]
    { name := "docs/sub.pdf/", size := 9, downloadOk := true }
    ["/tmp/scratch/real.md"]
    (by simp) (by decide) (by rfl)).1

/-! ## Lemmas about the document loader -/

/-- Documents contributed by a single file: the per-file body of
`load_documents_from_files`, with a raising parser contributing nothing. -/
def loadOneFile (pdfPages : String → Except String (List String))
    (fileText : String → Except String String) (file_path : String) :
    List Document :=
  let file_ext := strLower (pathSuffix file_path)
  if file_ext = ".pdf" then
    match pyPdfLoaderLoad pdfPages file_path with
    | .ok docs => docs
    | .error _ => []
  else if file_ext = ".md" ∨ file_ext = ".markdown" then
    match textLoaderLoad fileText file_path with
    | .ok docs => docs.map (stampMarkdownMeta file_path)
    | .error _ => []
  else []

theorem loadDocumentsGo_eq (pdfPages : String → Except String (List String))
    (fileText : String → Except String String) (file_paths : List String)
    (documents : List Document) :
    loadDocumentsGo pdfPages fileText file_paths documents
      = documents ++ file_paths.flatMap (loadOneFile pdfPages fileText) := by
  induction file_paths generalizing documents with
  | nil => simp [loadDocumentsGo]
  | cons p rest ih =>
    rw [List.flatMap_cons, ← List.append_assoc,
      ← ih (documents ++ loadOneFile pdfPages fileText p)]
    show loadDocumentsGo pdfPages fileText (p :: rest) documents
      = loadDocumentsGo pdfPages fileText rest
          (documents ++ loadOneFile pdfPages fileText p)
    conv_lhs => rw [loadDocumentsGo]
    congr 1
    unfold loadOneFile
    simp only
    by_cases h1 : strLower (pathSuffix p) = ".pdf"
    · rw [if_pos h1, if_pos h1]
      cases hres : pyPdfLoaderLoad pdfPages p <;> simp
    · rw [if_neg h1, if_neg h1]
      by_cases h2 : strLower (pathSuffix p) = ".md" ∨ strLower (pathSuffix p) = ".markdown"
      · rw [if_pos h2, if_pos h2]
        cases hres : textLoaderLoad fileText p <;> simp
      · rw [if_neg h2, if_neg h2]
        simp

/-- The loader as a whole is the concatenation of its per-file
contributions. -/
theorem load_documents_from_files_eq (pdfPages : String → Except String (List String))
    (fileText : String → Except String String) (file_paths : List String) :
    load_documents_from_files pdfPages fileText file_paths
      = file_paths.flatMap (loadOneFile pdfPages fileText) := by
  unfold load_documents_from_files
  rw [loadDocumentsGo_eq]
  simp

/-! ## Claim C6 -/

/-- The parser chosen for this file raises: a PDF whose parse fails, or a
markdown file whose read fails. -/
def loaderRaisesOn (pdfPages : String → Except String (List String))
    (fileText : String → Except String String) (file_path : String) : Prop :=
  (strLower (pathSuffix file_path) = ".pdf" ∧ ∃ e, pdfPages file_path = .error e) ∨
  ((strLower (pathSuffix file_path) = ".md" ∨ strLower (pathSuffix file_path) = ".markdown")
    ∧ ∃ e, fileText file_path = .error e)

/-- C6: a file whose parse raises is logged and skipped —
`load_documents_from_files` returns exactly the documents of the remaining
files, never raising and never aborting the batch (it is a total function
into document lists). -/
theorem load_documents_skips_failing_file
    (pdfPages : String → Except String (List String))
    (fileText : String → Except String String)
    (pre post : List String) (p : String)
    (h : loaderRaisesOn pdfPages fileText p) :
    load_documents_from_files pdfPages fileText (pre ++ p :: post)
      = load_documents_from_files pdfPages fileText (pre ++ post) := by
  have hone : loadOneFile pdfPages fileText p = [] := by
    unfold loadOneFile
    rcases h with ⟨hext, e, herr⟩ | ⟨hext, e, herr⟩
    · rw [if_pos hext]
      unfold pyPdfLoaderLoad
      rw [herr]
      rfl
    · have hnotpdf : strLower (pathSuffix p) ≠ ".pdf" := by
        rcases hext with hext | hext <;> rw [hext] <;> decide
      rw [if_neg hnotpdf, if_pos hext]
      unfold textLoaderLoad
      rw [herr]
      rfl
  rw [load_documents_from_files_eq, load_documents_from_files_eq]
  simp [List.flatMap_append, hone]

/-- Failing markdown read used by the C6 witness. -/
def failingWorldFileText : String → Except String String :=
  fun p => if p = "bad.md" then .error "boom" else .ok "good text"

/-- Sample PDF parses used by witnesses: one one-page document for
`a.pdf`, failure for everything else. -/
def sampleWorldPdfPages : String → Except String (List String) :=
  fun p => if p = "a.pdf" then .ok ["hello world"] else .error "no parse"

/-- Witness for C6: dropping the failing `bad.md` from a concrete run
leaves the loaded documents unchanged. -/
theorem load_documents_skips_failing_file_witness :
    load_documents_from_files sampleWorldPdfPages failingWorldFileText
        ["a.pdf", "bad.md", "good.md"]
      = load_documents_from_files sampleWorldPdfPages failingWorldFileText
        ["a.pdf", "good.md"] :=
  load_documents_skips_failing_file sampleWorldPdfPages failingWorldFileText
    ["a.pdf"] ["good.md"] "bad.md"
    (Or.inr ⟨Or.inl (by decide), "boom", by rfl⟩)

/-! ## Claim C9 -/

/-- Counterexample to C9: a PDF file is dispatched to the PDF parser, but
the resulting documents are NOT stamped with `source_type` / `file_name` —
that stamping happens only in the markdown branch (load_data.py lines
149-151); the PDF documents carry only the parser's own `source` and
`page` metadata. -/
theorem pdf_branch_not_stamped_cex :
    load_documents_from_files sampleWorldPdfPages failingWorldFileText ["a.pdf"]
      = [{ page_content := "hello world",
           metadata := [("source", "a.pdf"), ("page", "0")], links := [] }]
    ∧ ([("source", "a.pdf"), ("page", "0")].any fun kv => kv.1 = "source_type") = false
    ∧ ([("source", "a.pdf"), ("page", "0")].any fun kv => kv.1 = "file_name") = false := by
  refine ⟨by decide, by decide, by decide⟩

/-- C9 amended: `load_documents_from_files` dispatches by lower-cased file
extension — `.pdf` to the PDF parser, whose documents are passed through
with the parser's own metadata, and `.md`/`.markdown` to the flat text
reader, whose documents are additionally stamped with
`source_type = markdown` and `file_name`; only the markdown branch stamps
this metadata. -/
theorem loader_dispatch_and_stamping
    (pdfPages : String → Except String (List String))
    (fileText : String → Except String String) (p : String) :
    (strLower (pathSuffix p) = ".pdf" →
      load_documents_from_files pdfPages fileText [p]
        = (match pyPdfLoaderLoad pdfPages p with
           | Except.ok docs => docs
           | Except.error _ => []))
    ∧ (strLower (pathSuffix p) = ".md" ∨ strLower (pathSuffix p) = ".markdown" →
        load_documents_from_files pdfPages fileText [p]
          = (match textLoaderLoad fileText p with
             | Except.ok docs => docs.map (stampMarkdownMeta p)
             | Except.error _ => [])
        ∧ ∀ d ∈ load_documents_from_files pdfPages fileText [p],
            ("source_type", "markdown") ∈ d.metadata
            ∧ ("file_name", basename p) ∈ d.metadata) := by
  have hsingle : load_documents_from_files pdfPages fileText [p]
      = loadOneFile pdfPages fileText p := by
    rw [load_documents_from_files_eq]
    simp
  constructor
  · intro h1
    rw [hsingle]
    unfold loadOneFile
    simp only
    rw [if_pos h1]
  · intro h2
    have hnotpdf : ¬ strLower (pathSuffix p) = ".pdf" := by
      rcases h2 with h | h <;> rw [h] <;> decide
    have hbranch : load_documents_from_files pdfPages fileText [p]
        = (match textLoaderLoad fileText p with
           | Except.ok docs => docs.map (stampMarkdownMeta p)
           | Except.error _ => []) := by
      rw [hsingle]
      unfold loadOneFile
      simp only
      rw [if_neg hnotpdf, if_pos h2]
    refine ⟨hbranch, ?_⟩
    intro d hd
    rw [hbranch] at hd
    unfold textLoaderLoad at hd
    cases hft : fileText p with
    | error e =>
      rw [hft] at hd
      simp [Except.map] at hd
    | ok t =>
      rw [hft] at hd
      have hd2 : d = stampMarkdownMeta p
          { page_content := t, metadata := [("source", p)], links := [] } := by
        simpa [Except.map] using hd
      subst hd2
      constructor
      · simp [stampMarkdownMeta, setMeta]
      · simp [stampMarkdownMeta, setMeta]

/-- Witness for the amended C9 at a concrete markdown file. -/
theorem loader_dispatch_and_stamping_witness :
    ("source_type", "markdown") ∈
        (stampMarkdownMeta "good.md"
          { page_content := "good text", metadata := [("source", "good.md")],
            links := [] }).metadata
    ∧ ("file_name", basename "good.md") ∈
        (stampMarkdownMeta "good.md"
          { page_content := "good text", metadata := [("source", "good.md")],
            links := [] }).metadata :=
  ((loader_dispatch_and_stamping sampleWorldPdfPages failingWorldFileText
      "good.md").2 (Or.inl (by decide))).2
    (stampMarkdownMeta "good.md"
      { page_content := "good text", metadata := [("source", "good.md")],
        links := [] })
    (by decide)

/-! ## Lemmas about the chunk splitter -/

theorem unitsAux_ne_nil (l acc : List Char) : unitsAux acc l ≠ [] := by
  induction l generalizing acc with
  | nil => simp [unitsAux]
  | cons c cs ih =>
    unfold unitsAux
    by_cases hc : c = '\n'
    · rw [if_pos hc]
      simp
    · rw [if_neg hc]
      exact ih _

theorem splitIntoUnits_ne_nil (s : String) : splitIntoUnits s ≠ [] := by
  unfold splitIntoUnits
  simp [unitsAux_ne_nil]

theorem foldl_addUnit_ne_nil (cs : Nat) (us : List String)
    (acc : List (List String)) (h : acc ≠ []) :
    us.foldl (addUnit cs) acc ≠ [] := by
  induction us generalizing acc with
  | nil => simpa using h
  | cons u us ih =>
    simp only [List.foldl_cons]
    apply ih
    cases acc with
    | nil => simp [addUnit]
    | cons cur rest =>
      simp only [addUnit]
      by_cases hfit : unitsLen (cur ++ [u]) ≤ cs
      · rw [if_pos hfit]
        simp
      · rw [if_neg hfit]
        simp

theorem mergeUnits_ne_nil (cs : Nat) (us : List String) (h : us ≠ []) :
    mergeUnits cs us ≠ [] := by
  unfold mergeUnits
  rw [ne_eq, List.reverse_eq_nil_iff]
  cases us with
  | nil => exact absurd rfl h
  | cons u us =>
    simp only [List.foldl_cons]
    exact foldl_addUnit_ne_nil cs us (addUnit cs [] u) (by simp [addUnit])

/-- Invariant of the greedy merge: every produced group draws its units
from `S`, and either fits within the bound or is a single indivisible
unit. -/
def goodGroup (cs : Nat) (S : List String) (g : List String) : Prop :=
  (∀ u ∈ g, u ∈ S) ∧ (unitsLen g ≤ cs ∨ ∃ u, g = [u])

theorem foldl_addUnit_good (cs : Nat) (S : List String) (us : List String)
    (hus : ∀ u ∈ us, u ∈ S) (acc : List (List String))
    (hacc : ∀ g ∈ acc, goodGroup cs S g) :
    ∀ g ∈ us.foldl (addUnit cs) acc, goodGroup cs S g := by
  induction us generalizing acc with
  | nil => simpa using hacc
  | cons u us ih =>
    simp only [List.foldl_cons]
    have hu : u ∈ S := hus u (List.mem_cons_self u us)
    apply ih (fun v hv => hus v (List.mem_cons_of_mem u hv))
    intro g hg
    cases acc with
    | nil =>
      simp only [addUnit, List.mem_singleton] at hg
      subst hg
      exact ⟨by simpa using hu, Or.inr ⟨u, rfl⟩⟩
    | cons cur rest =>
      simp only [addUnit] at hg
      by_cases hfit : unitsLen (cur ++ [u]) ≤ cs
      · rw [if_pos hfit] at hg
        rcases List.mem_cons.mp hg with rfl | hg2
        · refine ⟨?_, Or.inl hfit⟩
          intro v hv
          rcases List.mem_append.mp hv with h | h
          · exact (hacc cur (List.mem_cons_self _ _)).1 v h
          · rw [List.mem_singleton.mp h]
            exact hu
        · exact hacc g (List.mem_cons_of_mem _ hg2)
      · rw [if_neg hfit] at hg
        rcases List.mem_cons.mp hg with rfl | hg2
        · exact ⟨by simpa using hu, Or.inr ⟨u, rfl⟩⟩
        · exact hacc g hg2

theorem mergeUnits_good (cs : Nat) (us : List String) :
    ∀ g ∈ mergeUnits cs us, goodGroup cs us g := by
  intro g hg
  unfold mergeUnits at hg
  rw [List.mem_reverse] at hg
  exact foldl_addUnit_good cs us us (fun _ h => h) [] (by simp) g hg

theorem joinUnits_length (g : List String) :
    (joinUnits g).length = unitsLen g := by
  induction g with
  | nil => rfl
  | cons u us ih => simp [joinUnits, unitsLen, String.length_append, ih]

/-! ## Claim C8 -/

/-- C8: the splitting stage with `chunk_size = 1024` produces at least as
many chunks as input documents, and every produced chunk text has length
at most 1024 except where the chunk is a single indivisible unit of a
parent document longer than 1024. -/
theorem split_stage_counts_and_sizes (batch : List Document) :
    batch.length ≤ (splitDocuments 1024 64 batch).length
    ∧ ∀ c ∈ splitDocuments 1024 64 batch,
        c.page_content.length ≤ 1024
        ∨ ∃ d ∈ batch, ∃ u ∈ splitIntoUnits d.page_content,
            c.page_content = u ∧ 1024 < u.length := by
  constructor
  · induction batch with
    | nil => simp [splitDocuments]
    | cons d ds ih =>
      unfold splitDocuments at ih ⊢
      rw [List.flatMap_cons, List.length_append, List.length_cons]
      have h1 : 1 ≤ (splitDocument 1024 64 d).length := by
        have hne := mergeUnits_ne_nil 1024 (splitIntoUnits d.page_content)
          (splitIntoUnits_ne_nil _)
        unfold splitDocument
        simp only [List.length_map]
        rcases Nat.eq_zero_or_pos (mergeUnits 1024 (splitIntoUnits d.page_content)).length
          with hz | hp
        · exact absurd (List.length_eq_zero.mp hz) hne
        · exact hp
      omega
  · intro c hc
    unfold splitDocuments at hc
    rcases List.mem_flatMap.mp hc with ⟨d, hd, hcd⟩
    unfold splitDocument at hcd
    rcases List.mem_map.mp hcd with ⟨g, hg, rfl⟩
    obtain ⟨hsub, hsize⟩ := mergeUnits_good 1024 (splitIntoUnits d.page_content) g hg
    rcases hsize with hle | ⟨u, rfl⟩
    · left
      show (joinUnits g).length ≤ 1024
      rw [joinUnits_length]
      exact hle
    · by_cases hu : u.length ≤ 1024
      · left
        show (joinUnits [u]).length ≤ 1024
        rw [joinUnits_length]
        simpa [unitsLen] using hu
      · right
        refine ⟨d, hd, u, hsub u (by simp), ?_, by omega⟩
        show joinUnits [u] = u
        simp [joinUnits]

/-! ## Lemmas about the batch loop -/

theorem pyRangeStep_pos {start stop step : Nat} (h : start < stop) (hs : 0 < step) :
    pyRangeStep start stop step = start :: pyRangeStep (start + step) stop step := by
  rw [pyRangeStep, dif_pos ⟨h, hs⟩]

theorem pyRangeStep_nil {start stop step : Nat} (h : ¬ start < stop) :
    pyRangeStep start stop step = [] := by
  rw [pyRangeStep, dif_neg fun hc => h hc.1]

theorem mem_pyRangeStep_lt {start stop step i : Nat}
    (h : i ∈ pyRangeStep start stop step) : i < stop := by
  induction start, stop, step using pyRangeStep.induct with
  | case1 start stop step hlt ih =>
    rw [pyRangeStep, dif_pos hlt] at h
    rcases List.mem_cons.mp h with rfl | h2
    · exact hlt.1
    · exact ih h2
  | case2 start stop step hge =>
    rw [pyRangeStep, dif_neg hge] at h
    cases h

/-- The slices `documents[i:i+10]` taken along `range(0, len, 10)` put
every document in exactly one batch, in order. -/
theorem flatten_pyRangeStep_slices {α : Type} (docs : List α) (start : Nat) :
    ((pyRangeStep start docs.length 10).map fun i => (docs.drop i).take 10).flatten
      = docs.drop start := by
  have key : ∀ k start, docs.length - start ≤ k →
      ((pyRangeStep start docs.length 10).map fun i => (docs.drop i).take 10).flatten
        = docs.drop start := by
    intro k
    induction k with
    | zero =>
      intro s hs
      have hd : docs.drop s = [] := List.drop_eq_nil_of_le (by omega)
      rw [pyRangeStep_nil (by omega), hd]
      simp
    | succ k ih =>
      intro s hs
      by_cases hlt : s < docs.length
      · rw [pyRangeStep_pos hlt (by omega)]
        simp only [List.map_cons, List.flatten_cons]
        rw [ih (s + 10) (by omega)]
        have hdd : (docs.drop s).drop 10 = docs.drop (s + 10) := by
          rw [List.drop_drop]
        rw [← hdd]
        exact List.take_append_drop 10 (docs.drop s)
      · have hd : docs.drop s = [] := List.drop_eq_nil_of_le (by omega)
        rw [pyRangeStep_nil hlt, hd]
        simp
  exact key (docs.length - start) start (Nat.le_refl _)

/-- Every batch except possibly the last has exactly 10 documents. -/
theorem pyRangeStep_slices_dropLast_len {α : Type} (docs : List α) (start : Nat) :
    ∀ b ∈ ((pyRangeStep start docs.length 10).map fun i =>
            (docs.drop i).take 10).dropLast,
      b.length = 10 := by
  have key : ∀ k start, docs.length - start ≤ k →
      ∀ b ∈ ((pyRangeStep start docs.length 10).map fun i =>
              (docs.drop i).take 10).dropLast,
        b.length = 10 := by
    intro k
    induction k with
    | zero =>
      intro s hs
      rw [pyRangeStep_nil (by omega)]
      simp
    | succ k ih =>
      intro s hs
      by_cases hlt : s < docs.length
      · rw [pyRangeStep_pos hlt (by omega)]
        cases hrest : pyRangeStep (s + 10) docs.length 10 with
        | nil => simp
        | cons j js =>
          have hnext : s + 10 < docs.length := by
            by_contra hge
            rw [pyRangeStep_nil hge] at hrest
            cases hrest
          intro b hb
          simp only [List.map_cons] at hb
          rw [List.dropLast_cons_of_ne_nil (by simp)] at hb
          rcases List.mem_cons.mp hb with rfl | hb2
          · simp only [List.length_take, List.length_drop]
            omega
          · have hih := ih (s + 10) (by omega)
            rw [hrest] at hih
            simp only [List.map_cons] at hih
            exact hih b hb2
      · rw [pyRangeStep_nil hlt]
        simp
  exact key (docs.length - start) start (Nat.le_refl _)

/-- Every batch is nonempty and holds at most 10 documents. -/
theorem pyRangeStep_slices_bounds {α : Type} (docs : List α) (start : Nat)
    (b : List α)
    (hb : b ∈ (pyRangeStep start docs.length 10).map fun i =>
            (docs.drop i).take 10) :
    0 < b.length ∧ b.length ≤ 10 := by
  rcases List.mem_map.mp hb with ⟨i, hi, rfl⟩
  have hilt := mem_pyRangeStep_lt hi
  simp only [List.length_take, List.length_drop]
  omega

/-- Unrolling of the batch loop: the events are the per-batch events in
order, and the store receives the per-batch outputs in order. -/
theorem mainLoop_eq (kw : String → List String)
    (ner : List String → String → List (String × String))
    (documents : List Document) :
    mainLoop kw ner documents
      = ((pyRangeStep 0 documents.length 10).flatMap
           (fun i => (mainLoopBody kw ner documents i).1),
         (pyRangeStep 0 documents.length 10).map
           (fun i => (mainLoopBody kw ner documents i).2)) := by
  unfold mainLoop
  have key : ∀ (l : List Nat) (e : List ScriptEvent × List (List Document)),
      l.foldl (fun acc i =>
          (acc.1 ++ (mainLoopBody kw ner documents i).1,
           acc.2 ++ [(mainLoopBody kw ner documents i).2])) e
        = (e.1 ++ l.flatMap (fun i => (mainLoopBody kw ner documents i).1),
           e.2 ++ l.map (fun i => (mainLoopBody kw ner documents i).2)) := by
    intro l
    induction l with
    | nil => intro e; simp
    | cons i l ih =>
      intro e
      rw [List.foldl_cons, ih]
      simp
  rw [key]
  simp

/-! ## Claim C1 -/

/-- C1: `main` processes the loaded documents in fixed-size batches of 10
(the final batch may be smaller but is never empty), and to each batch it
applies exactly three enrichment stages in this fixed order — keyword
link extraction on the whole documents, recursive splitting with
`chunk_size` 1024 and `chunk_overlap` 64, then entity link extraction with
the fixed label set on the already-split chunks — before writing the
batch to the store. -/
theorem main_batches_of_ten_with_three_stages (kw : String → List String)
    (ner : List String → String → List (String × String))
    (documents : List Document) :
    (mainLoop kw ner documents).2
      = (batchSlices documents 10).map (processBatchSpec kw ner)
    ∧ (mainLoop kw ner documents).1
      = (batchSlices documents 10).flatMap (fun b =>
          [ScriptEvent.keybertExtract, ScriptEvent.splitChunks 1024 64,
           ScriptEvent.glinerExtract glinerLabels,
           ScriptEvent.storeWrite (processBatchSpec kw ner b).length])
    ∧ (batchSlices documents 10).flatten = documents
    ∧ (∀ b ∈ (batchSlices documents 10).dropLast, b.length = 10)
    ∧ ∀ b ∈ batchSlices documents 10, 0 < b.length ∧ b.length ≤ 10 := by
  refine ⟨?_, ?_, ?_, ?_, ?_⟩
  · rw [mainLoop_eq]
    unfold batchSlices
    rw [List.map_map]
    rfl
  · rw [mainLoop_eq]
    unfold batchSlices
    rw [List.flatMap_map]
    rfl
  · unfold batchSlices
    simpa using flatten_pyRangeStep_slices documents 0
  · exact pyRangeStep_slices_dropLast_len documents 0
  · exact fun b hb => pyRangeStep_slices_bounds documents 0 b hb

/-! ## Claim C5 -/

theorem keybertStage_metadata (kw : String → List String)
    (docs : List Document) :
    ∀ c ∈ keybertStage kw docs, ∃ d ∈ docs, c.metadata = d.metadata := by
  intro c hc
  rcases List.mem_map.mp hc with ⟨d, hd, rfl⟩
  exact ⟨d, hd, rfl⟩

theorem glinerStage_metadata (labels : List String)
    (ner : List String → String → List (String × String))
    (docs : List Document) :
    ∀ c ∈ glinerStage labels ner docs, ∃ d ∈ docs, c.metadata = d.metadata := by
  intro c hc
  rcases List.mem_map.mp hc with ⟨d, hd, rfl⟩
  exact ⟨d, hd, rfl⟩

theorem splitDocuments_metadata (cs co : Nat) (docs : List Document) :
    ∀ c ∈ splitDocuments cs co docs, ∃ d ∈ docs, c.metadata = d.metadata := by
  intro c hc
  rcases List.mem_flatMap.mp hc with ⟨d, hd, hcd⟩
  rcases List.mem_map.mp hcd with ⟨g, _, rfl⟩
  exact ⟨d, hd, rfl⟩

theorem processBatchSpec_metadata (kw : String → List String)
    (ner : List String → String → List (String × String))
    (batch : List Document) :
    ∀ c ∈ processBatchSpec kw ner batch, ∃ d ∈ batch, c.metadata = d.metadata := by
  intro c hc
  obtain ⟨x, hx, hcx⟩ := glinerStage_metadata glinerLabels ner _ c hc
  obtain ⟨y, hy, hxy⟩ := splitDocuments_metadata 1024 64 _ x hx
  obtain ⟨d, hd, hyd⟩ := keybertStage_metadata kw _ y hy
  exact ⟨d, hd, by rw [hcx, hxy, hyd]⟩

/-- C5: every chunk produced by the batch pipeline keeps the key-value
metadata of a parent document unchanged — after keyword extraction, after
splitting, and after entity extraction (the stages add link entries but
never remove or alter inherited metadata) — and this holds for every
chunk the loop hands to the store. -/
theorem pipeline_preserves_inherited_metadata (kw : String → List String)
    (ner : List String → String → List (String × String))
    (documents batch : List Document) :
    (∀ c ∈ keybertStage kw batch, ∃ d ∈ batch, c.metadata = d.metadata)
    ∧ (∀ c ∈ splitDocuments 1024 64 (keybertStage kw batch),
        ∃ d ∈ batch, c.metadata = d.metadata)
    ∧ (∀ c ∈ processBatchSpec kw ner batch, ∃ d ∈ batch, c.metadata = d.metadata)
    ∧ ∀ out ∈ (mainLoop kw ner documents).2, ∀ c ∈ out,
        ∃ d ∈ documents, c.metadata = d.metadata := by
  refine ⟨keybertStage_metadata kw batch, ?_, processBatchSpec_metadata kw ner batch, ?_⟩
  · intro c hc
    obtain ⟨y, hy, hcy⟩ := splitDocuments_metadata 1024 64 _ c hc
    obtain ⟨d, hd, hyd⟩ := keybertStage_metadata kw _ y hy
    exact ⟨d, hd, by rw [hcy, hyd]⟩
  · intro out hout c hc
    rw [mainLoop_eq] at hout
    rcases List.mem_map.mp hout with ⟨i, _, rfl⟩
    obtain ⟨d, hd, hcd⟩ :=
      processBatchSpec_metadata kw ner ((documents.drop i).take 10) c hc
    exact ⟨d, List.drop_subset i documents (List.take_subset 10 _ hd), hcd⟩

/-! ## Concrete environments and worlds for the script-level claims -/

/-- World with an empty GCS listing and failing parsers. -/
def emptyWorld : World :=
  { blobs := []
    pdfPages := fun _ => .error "no file"
    fileText := fun _ => .error "no file"
    kw := fun _ => []
    ner := fun _ _ => [] }

/-- World whose fetch succeeds with one markdown file that then fails to
load. -/
def failWorld : World :=
  { blobs := [{ name := "docs/x.md", size := 4, downloadOk := true }]
    pdfPages := fun _ => .error "no parse"
    fileText := fun _ => .error "no read"
    kw := fun _ => []
    ner := fun _ _ => [] }

/-- Environment with every variable set. -/
def envAllSet : Env :=
  { openaiApiKey := some "sk-test"
    astraDbDatabaseId := some "db-id"
    astraDbApplicationToken := some "astra-token"
    astraDbEndpoint := some "astra-endpoint"
    gcsBucketName := some "bucket"
    gcsFolderPref := some "docs/" }

/-- Environment with Astra credentials but no GCS bucket. -/
def envNoBucket : Env := { envAllSet with gcsBucketName := none }

/-- Environment missing the Astra application token. -/
def envNoAstraToken : Env := { envAllSet with astraDbApplicationToken := none }

/-! ## Claim C3 -/

/-- Counterexample to C3: with Astra credentials present but
`GCS_BUCKET_NAME` unset, the script raises only inside `main` — after the
module-level `cassio.init` store connection (a network call) has already
run — so the error is NOT raised before the store connection is
initialized. -/
theorem missing_bucket_raises_after_store_init_cex :
    ScriptEvent.cassioInit ∈ (runScript envNoBucket emptyWorld).1
    ∧ ScriptEvent.storeInit ∈ (runScript envNoBucket emptyWorld).1
    ∧ (runScript envNoBucket emptyWorld).2.1
        = Outcome.raised "GCS_BUCKET_NAME environment variable is not set" true := by
  refine ⟨by decide, by decide, by rfl⟩

/-- C3 amended: a missing Astra DB credential raises at module load,
before `cassio.init`, the store constructor and any GCS call; a missing
`GCS_BUCKET_NAME` (with Astra credentials present) raises in `main`
before any GCS listing or download is attempted, though only after the
module-level store connection has been initialized. -/
theorem missing_env_vars_failfast (env : Env) (w : World) :
    (¬ (isSet env.astraDbDatabaseId = true ∧ isSet env.astraDbApplicationToken = true
        ∧ isSet env.astraDbEndpoint = true) →
      (runScript env w).1 = [ScriptEvent.openAiEmbeddingsInit]
      ∧ (runScript env w).2.1
          = Outcome.raised "Missing required Astra DB credentials" false)
    ∧ ((isSet env.astraDbDatabaseId = true ∧ isSet env.astraDbApplicationToken = true
        ∧ isSet env.astraDbEndpoint = true) →
      isSet env.gcsBucketName = false →
      (runScript env w).1
        = [ScriptEvent.openAiEmbeddingsInit, ScriptEvent.cassioInit,
           ScriptEvent.storeInit]
      ∧ (runScript env w).2.1
          = Outcome.raised "GCS_BUCKET_NAME environment variable is not set" true) := by
  constructor
  · intro h
    have hmod : moduleInit env
        = ([ScriptEvent.openAiEmbeddingsInit],
           some "Missing required Astra DB credentials") := by
      unfold moduleInit
      rw [if_pos h]
    constructor
    · simp [runScript, hmod]
    · simp [runScript, hmod]
  · intro h hb
    have hmod : moduleInit env
        = ([ScriptEvent.openAiEmbeddingsInit, ScriptEvent.cassioInit,
            ScriptEvent.storeInit], none) := by
      unfold moduleInit
      rw [if_neg (by simpa using h)]
    have hmain : runMain env w
        = ([], Outcome.raised "GCS_BUCKET_NAME environment variable is not set" true) := by
      unfold runMain
      rw [if_pos (by simp [hb])]
    constructor
    · simp [runScript, hmod, hmain]
    · simp [runScript, hmod, hmain]

/-- Witness for the amended C3 at concrete environments. -/
theorem missing_env_vars_failfast_witness :
    (runScript envNoAstraToken emptyWorld).2.1
        = Outcome.raised "Missing required Astra DB credentials" false
    ∧ (runScript envNoBucket emptyWorld).1
        = [ScriptEvent.openAiEmbeddingsInit, ScriptEvent.cassioInit,
           ScriptEvent.storeInit] :=
  ⟨((missing_env_vars_failfast envNoAstraToken emptyWorld).1 (by decide)).2,
   ((missing_env_vars_failfast envNoBucket emptyWorld).2 (by decide) (by decide)).1⟩

/-! ## Claim C7 -/

/-- Counterexample to C7: with the Astra application token missing, the
exception is raised at module import — `main` never runs, and nothing is
logged and re-raised by `main` — contradicting the claim that each
unrecoverable condition (including missing credentials) makes `main`
raise a logged exception. -/
theorem missing_astra_creds_skip_main_cex :
    (runScript envNoAstraToken emptyWorld).2.1
        = Outcome.raised "Missing required Astra DB credentials" false
    ∧ (runScript envNoAstraToken emptyWorld).2.2 = false := by
  refine ⟨by rfl, by rfl⟩

/-- C7 amended: the unrecoverable conditions checked inside `main` —
missing `GCS_BUCKET_NAME`, an empty fetch result, an empty load result —
each make `main` raise an exception that is logged and re-raised; missing
Astra DB credentials raise at module import before `main` ever runs (and
without `main` logging); in every case the run ends in an uncaught
exception (non-zero process exit) instead of returning normally. -/
theorem unrecoverable_conditions_terminate (env : Env) (w : World) :
    (isSet env.gcsBucketName = false →
      (runMain env w).2
        = Outcome.raised "GCS_BUCKET_NAME environment variable is not set" true)
    ∧ (isSet env.gcsBucketName = true →
        download_gcs_files "/tmp/scratch" w.blobs = Except.ok [] →
        (runMain env w).2
          = Outcome.raised "No PDF or Markdown files found in the specified GCS location" true)
    ∧ (∀ file_paths, isSet env.gcsBucketName = true →
        download_gcs_files "/tmp/scratch" w.blobs = Except.ok file_paths →
        file_paths ≠ [] →
        load_documents_from_files w.pdfPages w.fileText file_paths = [] →
        (runMain env w).2
          = Outcome.raised "No documents could be loaded from the files" true)
    ∧ (¬ (isSet env.astraDbDatabaseId = true ∧ isSet env.astraDbApplicationToken = true
          ∧ isSet env.astraDbEndpoint = true) →
        (runScript env w).2.2 = false
        ∧ (runScript env w).2.1
            = Outcome.raised "Missing required Astra DB credentials" false) := by
  refine ⟨?_, ?_, ?_, ?_⟩
  · intro hb
    unfold runMain
    rw [if_pos (by simp [hb])]
  · intro hb hfetch
    unfold runMain
    rw [if_neg (by simp [hb]), hfetch]
    simp
  · intro file_paths hb hfetch hne hload
    unfold runMain
    rw [if_neg (by simp [hb]), hfetch]
    simp only
    rw [if_neg hne, hload]
    simp
  · intro h
    have hmod : moduleInit env
        = ([ScriptEvent.openAiEmbeddingsInit],
           some "Missing required Astra DB credentials") := by
      unfold moduleInit
      rw [if_pos h]
    exact ⟨by simp [runScript, hmod], by simp [runScript, hmod]⟩

/-- Witness for the amended C7: each unrecoverable condition exercised at
a concrete environment and world. -/
theorem unrecoverable_conditions_terminate_witness :
    (runMain envNoBucket emptyWorld).2
      = Outcome.raised "GCS_BUCKET_NAME environment variable is not set" true
    ∧ (runMain envAllSet emptyWorld).2
      = Outcome.raised "No PDF or Markdown files found in the specified GCS location" true
    ∧ (runMain envAllSet failWorld).2
      = Outcome.raised "No documents could be loaded from the files" true
    ∧ (runScript envNoAstraToken emptyWorld).2.2 = false :=
  ⟨(unrecoverable_conditions_terminate envNoBucket emptyWorld).1 (by decide),
   (unrecoverable_conditions_terminate envAllSet emptyWorld).2.1 (by decide) (by rfl),
   (unrecoverable_conditions_terminate envAllSet failWorld).2.2.1
     ["/tmp/scratch/x.md"] (by decide) (by rfl) (by decide) (by rfl),
   ((unrecoverable_conditions_terminate envNoAstraToken emptyWorld).2.2.2
     (by decide)).1⟩

/-! ## Witnesses at concrete pipeline inputs -/

/-- Sample document used by the pipeline witnesses. -/
def sampleDoc : Document :=
  { page_content := "hello", metadata := [("source", "a.md")], links := [] }

/-- Witness for C1: the single batch of a one-document run is nonempty
and within the batch bound. -/
theorem main_batches_of_ten_with_three_stages_witness :
    0 < [sampleDoc].length ∧ [sampleDoc].length ≤ 10 := by
  have hbs : batchSlices [sampleDoc] 10 = [[sampleDoc]] := by
    unfold batchSlices
    rw [pyRangeStep_pos (by norm_num) (by norm_num), pyRangeStep_nil (by norm_num)]
    rfl
  exact (main_batches_of_ten_with_three_stages (fun _ => []) (fun _ _ => [])
    [sampleDoc]).2.2.2.2 [sampleDoc] (by rw [hbs]; exact List.mem_singleton.mpr rfl)

/-- Witness for C5: the keyword stage output of a concrete batch keeps
the sample document's metadata. -/
theorem pipeline_preserves_inherited_metadata_witness :
    ∃ d ∈ [sampleDoc],
      (addLinks [{ kind := "kw", tag := "hello" }] sampleDoc).metadata = d.metadata :=
  (pipeline_preserves_inherited_metadata (fun s => [s]) (fun _ _ => [])
    [] [sampleDoc]).1
    (addLinks [{ kind := "kw", tag := "hello" }] sampleDoc) (by decide)

/-- Witness for C8 at a concrete one-document batch. -/
theorem split_stage_counts_and_sizes_witness :
    [sampleDoc].length ≤ (splitDocuments 1024 64 [sampleDoc]).length
    ∧ (sampleDoc.page_content.length ≤ 1024
        ∨ ∃ d ∈ [sampleDoc], ∃ u ∈ splitIntoUnits d.page_content,
            sampleDoc.page_content = u ∧ 1024 < u.length) := by
  refine ⟨(split_stage_counts_and_sizes [sampleDoc]).1, ?_⟩
  have h := (split_stage_counts_and_sizes [sampleDoc]).2 sampleDoc (by decide)
  exact h

end GraphRag
